import Mathlib

/-!
# The response cache of proxyd (`go/proxyd/cache.go`)

A shallow embedding of the storage backends, the compression decorator and the
RPC cache facade, followed by the properties proved about them.

Conventions of the embedding.

* A Go `string` is a Lean `String`; the code only compares strings and tests
  them for emptiness.  `[]byte(s)` and `string(b)` are mutually inverse, so a
  byte slice is represented by the string it converts to.
* A Go `error` is an `Option Error`, `none` being `nil`.  A Go result pair
  `(string, error)` is a Lean pair.
* Mutable state is passed explicitly: every method takes the `World` before the
  call and returns the `World` after it next to its Go results.  A `World`
  holds the calls made so far to the instrumentation hooks and the state of
  everything else the code talks to.
* The `context.Context` argument is dropped: no method of this file reads it.
-/

namespace proxyd

/-! ## Errors, instrumentation and the world -/

/-- A Go error value.  `RedisError` is the string-typed error of go-redis, any
other error is an `errorString`. -/
inductive Error where
  | RedisError (msg : String)
  | errorString (msg : String)
  deriving DecidableEq, Repr

/-- The sentinel `redis.Nil` that go-redis returns for an absent key. -/
def redis.Nil : Error := Error.RedisError "redis: nil"

/-- One call of an instrumentation hook, with its argument. -/
inductive Event where
  | CacheHit (method : String)
  | CacheMiss (method : String)
  | RedisError (source : String)
  deriving DecidableEq, Repr

/-- Everything mutable: the hook calls made so far, oldest first, and the state
`ext` of the collaborators (storage, handlers, remote services). -/
structure World (σ : Type) where
  events : List Event
  ext : σ

/-- Modelled from the spec: the hook `RecordCacheHit(method)`, defined outside
`cache.go`; the call is an observable side effect, here one more event. -/
def RecordCacheHit {σ : Type} (method : String) (w : World σ) : World σ :=
  ⟨w.events ++ [Event.CacheHit method], w.ext⟩

/-- Modelled from the spec: the hook `RecordCacheMiss(method)`, defined outside
`cache.go`; the call is an observable side effect, here one more event. -/
def RecordCacheMiss {σ : Type} (method : String) (w : World σ) : World σ :=
  ⟨w.events ++ [Event.CacheMiss method], w.ext⟩

/-- Modelled from the spec: the hook `RecordRedisError(source)` (the spec's
`RecordBackendError(operation)`), defined outside `cache.go`. -/
def RecordRedisError {σ : Type} (source : String) (w : World σ) : World σ :=
  ⟨w.events ++ [Event.RedisError source], w.ext⟩

/-! ## The `Cache` interface -/

/-- The interface `Cache`: `Get(ctx, key) (string, error)` and
`Put(ctx, key, value) error`. -/
structure Cache (σ : Type) where
  Get : String → World σ → (String × Option Error) × World σ
  Put : String → String → World σ → Option Error × World σ

/-! ## The memory cache -/

/-- The constant `memoryCacheLimit`. -/
def memoryCacheLimit : Nat := 4096

namespace lru

/-- Modelled from the spec: the bounded cache type of hashicorp/golang-lru that
`cache` wraps.  It has a fixed maximum entry count set at construction and
keeps its entries in order of use, the most recently used first. -/
structure Cache where
  size : Nat
  items : List (String × String)
  deriving DecidableEq, Repr

/-- Modelled from the spec: `lru.New(size)`, an empty cache of the given
capacity (the library refuses a capacity that is not positive; the only
capacity this file passes is `memoryCacheLimit`). -/
def New (size : Nat) : Cache := ⟨size, []⟩

/-- Modelled from the spec: `Get` of the bounded cache.  A read counts as a
use: the entry found moves to the front. -/
def Cache.Get (c : Cache) (key : String) : Option String × Cache :=
  match c.items.lookup key with
  | some val => (some val, ⟨c.size, (key, val) :: c.items.filter (fun e => e.1 ≠ key)⟩)
  | none => (none, c)

/-- Modelled from the spec: `Add` of the bounded cache.  A write counts as a
use: the entry moves to the front; a new entry that takes the cache over its
capacity evicts the least recently used one, the last of the list. -/
def Cache.Add (c : Cache) (key value : String) : Cache :=
  match c.items.lookup key with
  | some _ => ⟨c.size, (key, value) :: c.items.filter (fun e => e.1 ≠ key)⟩
  | none =>
    if c.size < (c.items.length + 1) then ⟨c.size, ((key, value) :: c.items).dropLast⟩
    else ⟨c.size, (key, value) :: c.items⟩

end lru

/-- The struct `cache`. -/
structure cache where
  lru : lru.Cache
  deriving DecidableEq, Repr

/-- The constructor `newMemoryCache`. -/
def newMemoryCache : cache := ⟨lru.New memoryCacheLimit⟩

/-- The method `(*cache).Get`, on the cache state itself. -/
def cache.Get (c : cache) (key : String) : (String × Option Error) × cache :=
  match c.lru.Get key with
  | (some val, l) => ((val, none), ⟨l⟩)
  | (none, l) => (("", none), ⟨l⟩)

/-- The method `(*cache).Put`, on the cache state itself. -/
def cache.Put (c : cache) (key value : String) : Option Error × cache :=
  (none, ⟨c.lru.Add key value⟩)

/-- The memory cache as an implementation of `Cache`: the world's `ext` is the
cache state. -/
def cache.toCache : Cache cache where
  Get := fun key w => ((cache.Get w.ext key).1, ⟨w.events, (cache.Get w.ext key).2⟩)
  Put := fun key value w => ((cache.Put w.ext key value).1, ⟨w.events, (cache.Put w.ext key value).2⟩)

/-! ## The redis cache -/

/-- The part of the go-redis client the code calls: `Get(ctx, key).Result()`
and `Set(ctx, key, value, 0).Err()`, as they act on the world. -/
structure redis.Client (σ : Type) where
  Get : String → World σ → (String × Option Error) × World σ
  Set : String → String → World σ → Option Error × World σ

/-- The struct `redisCache`. -/
structure redisCache (σ : Type) where
  rdb : redis.Client σ

/-- The method `(*redisCache).Get`. -/
def redisCache.Get {σ : Type} (c : redisCache σ) (key : String) (w : World σ) :
    (String × Option Error) × World σ :=
  match c.rdb.Get key w with
  | ((val, err), w1) =>
    if err = some redis.Nil then (("", none), w1)
    else if err ≠ none then (("", err), RecordRedisError "CacheGet" w1)
    else ((val, none), w1)

/-- The method `(*redisCache).Put`. -/
def redisCache.Put {σ : Type} (c : redisCache σ) (key value : String) (w : World σ) :
    Option Error × World σ :=
  match c.rdb.Set key value w with
  | (err, w1) =>
    if err ≠ none then (err, RecordRedisError "CacheSet" w1)
    else (err, w1)

/-- The redis cache as an implementation of `Cache`. -/
def redisCache.toCache {σ : Type} (c : redisCache σ) : Cache σ where
  Get := c.Get
  Put := c.Put

/-! ## The compression decorator -/

/-- The two functions of the snappy library the decorator calls,
`snappy.Encode(nil, src)` and `snappy.Decode(nil, src)`; both are pure. -/
structure Snappy where
  Encode : String → String
  Decode : String → String × Option Error

/-- The struct `cacheWithCompression`. -/
structure cacheWithCompression (σ : Type) where
  cache : Cache σ

/-- The constructor `newCacheWithCompression`. -/
def newCacheWithCompression {σ : Type} (cache : Cache σ) : cacheWithCompression σ := ⟨cache⟩

/-- The method `(*cacheWithCompression).Get`. -/
def cacheWithCompression.Get {σ : Type} (snappy : Snappy) (c : cacheWithCompression σ)
    (key : String) (w : World σ) : (String × Option Error) × World σ :=
  match c.cache.Get key w with
  | ((encodedVal, err), w1) =>
    if err ≠ none then (("", err), w1)
    else if encodedVal = "" then (("", none), w1)
    else
      match snappy.Decode encodedVal with
      | (val, err) =>
        if err ≠ none then (("", err), w1)
        else ((val, none), w1)

/-- The method `(*cacheWithCompression).Put`. -/
def cacheWithCompression.Put {σ : Type} (snappy : Snappy) (c : cacheWithCompression σ)
    (key value : String) (w : World σ) : Option Error × World σ :=
  c.cache.Put key (snappy.Encode value) w

/-- The decorator as an implementation of `Cache`. -/
def cacheWithCompression.toCache {σ : Type} (snappy : Snappy) (c : cacheWithCompression σ) :
    Cache σ where
  Get := c.Get snappy
  Put := c.Put snappy

/-! ## Requests, responses and handlers -/

/-- Modelled from the spec: a JSON value as it occurs among the parameters of a
request; what the handlers do not look at is kept as raw text. -/
inductive JSONValue where
  | string (s : String)
  | bool (b : Bool)
  | raw (text : String)
  deriving DecidableEq, Repr

/-- Modelled from the spec: the type `RPCReq`, declared outside `cache.go`:
`{method, params: ordered sequence of JSON values, id}`. -/
structure RPCReq where
  Method : String
  Params : List JSONValue
  ID : String
  deriving DecidableEq, Repr

/-- Modelled from the spec: the type `RPCRes`, declared outside `cache.go`:
`{result: JSON value}` or an error.  The result is kept as its JSON text; `Error`
is the error member of the response, absent in a successful one. -/
structure RPCRes where
  Result : String
  Error : Option String
  ID : String
  deriving DecidableEq, Repr

/-- The interface `RPCMethodHandler`, with the two methods `cache.go` calls. -/
structure RPCMethodHandler (σ : Type) where
  GetRPCMethod : RPCReq → World σ → (Option RPCRes × Option Error) × World σ
  PutRPCMethod : RPCReq → Option RPCRes → World σ → Option Error × World σ

/-- The function type `GetLatestBlockNumFn`: a read of the world. -/
abbrev GetLatestBlockNumFn (σ : Type) := World σ → Nat × Option Error

/-- The function type `GetLatestGasPriceFn`: a read of the world. -/
abbrev GetLatestGasPriceFn (σ : Type) := World σ → Nat × Option Error

/-- The handler types whose struct literals `newRPCCache` builds; the types are
declared outside `cache.go`, so each is taken with the fields the literal sets. -/
structure HandlerTypes (σ : Type) where
  StaticMethodHandler : RPCMethodHandler σ
  EthGetBlockByNumberMethodHandler : Cache σ → GetLatestBlockNumFn σ → Int → RPCMethodHandler σ
  EthGetBlockRangeMethodHandler : Cache σ → GetLatestBlockNumFn σ → Int → RPCMethodHandler σ
  EthBlockNumberMethodHandler : GetLatestBlockNumFn σ → RPCMethodHandler σ
  EthGasPriceMethodHandler : GetLatestGasPriceFn σ → RPCMethodHandler σ
  EthCallMethodHandler : Cache σ → GetLatestBlockNumFn σ → Int → RPCMethodHandler σ

/-! ## The RPC cache facade -/

/-- The struct `rpcCache`.  A Go map lookup yields `nil` for an absent key,
here `none`. -/
structure rpcCache (σ : Type) where
  cache : Cache σ
  handlers : String → Option (RPCMethodHandler σ)

/-- The constructor `newRPCCache`. -/
def newRPCCache {σ : Type} (T : HandlerTypes σ) (cache : Cache σ)
    (getLatestBlockNumFn : GetLatestBlockNumFn σ) (getLatestGasPriceFn : GetLatestGasPriceFn σ)
    (numBlockConfirmations : Int) : rpcCache σ where
  cache := cache
  handlers := fun method =>
    if method = "eth_chainId" then some T.StaticMethodHandler
    else if method = "net_version" then some T.StaticMethodHandler
    else if method = "eth_getBlockByNumber" then
      some (T.EthGetBlockByNumberMethodHandler cache getLatestBlockNumFn numBlockConfirmations)
    else if method = "eth_getBlockRange" then
      some (T.EthGetBlockRangeMethodHandler cache getLatestBlockNumFn numBlockConfirmations)
    else if method = "eth_blockNumber" then some (T.EthBlockNumberMethodHandler getLatestBlockNumFn)
    else if method = "eth_gasPrice" then some (T.EthGasPriceMethodHandler getLatestGasPriceFn)
    else if method = "eth_call" then
      some (T.EthCallMethodHandler cache getLatestBlockNumFn numBlockConfirmations)
    else none

/-- The method `(*rpcCache).GetRPC`. -/
def rpcCache.GetRPC {σ : Type} (c : rpcCache σ) (req : RPCReq) (w : World σ) :
    (Option RPCRes × Option Error) × World σ :=
  match c.handlers req.Method with
  | none => ((none, none), w)
  | some handler =>
    match handler.GetRPCMethod req w with
    | ((res, err), w1) =>
      if res.isSome then
        if res.isNone then ((res, err), RecordCacheMiss req.Method w1)
        else ((res, err), RecordCacheHit req.Method w1)
      else ((res, err), w1)

/-- The method `(*rpcCache).PutRPC`. -/
def rpcCache.PutRPC {σ : Type} (c : rpcCache σ) (req : RPCReq) (res : Option RPCRes)
    (w : World σ) : Option Error × World σ :=
  match c.handlers req.Method with
  | none => (none, w)
  | some handler => handler.PutRPCMethod req res w

/-! ## Runs of the memory cache -/

/-- One call on a `Cache`: `Get(key)` or `Put(key, value)`. -/
inductive Op where
  | Get (key : String)
  | Put (key value : String)
  deriving DecidableEq, Repr

/-- The state of the memory cache after one call. -/
def cache.step (c : cache) : Op → cache
  | Op.Get key => (c.Get key).2
  | Op.Put key value => (c.Put key value).2

/-- The state of the memory cache after a sequence of calls, in order. -/
def cache.run (c : cache) (ops : List Op) : cache := ops.foldl cache.step c

/-! ## The method handlers, from the spec -/

/-- Modelled from the spec: the state behind an RPC cache, that is what the
static handlers hold, by cache key, and the state of the storage backend. -/
structure HandlerState (τ : Type) where
  static : String → Option String
  backend : τ

/-- A cache on the backend state alone, as a cache on the state behind an RPC
cache: it leaves what the static handlers hold as it is. -/
def Cache.onBackend {τ : Type} (c : Cache τ) : Cache (HandlerState τ) where
  Get := fun key w =>
    ((c.Get key ⟨w.events, w.ext.backend⟩).1,
      ⟨(c.Get key ⟨w.events, w.ext.backend⟩).2.events,
        ⟨w.ext.static, (c.Get key ⟨w.events, w.ext.backend⟩).2.ext⟩⟩)
  Put := fun key value w =>
    ((c.Put key value ⟨w.events, w.ext.backend⟩).1,
      ⟨(c.Put key value ⟨w.events, w.ext.backend⟩).2.events,
        ⟨w.ext.static, (c.Put key value ⟨w.events, w.ext.backend⟩).2.ext⟩⟩)

/-- Modelled from the spec: the Static Handler (`StaticMethodHandler`, for
`eth_chainId` and `net_version`), whose methods are defined outside `cache.go`.
The value is always cacheable and the key is the method name alone.
`newRPCCache` builds the handler with no field set, so it is not handed the
storage backend and holds the value itself.  Only a successful response is
eligible; the response returned carries the id of the request. -/
def StaticMethodHandler {τ : Type} : RPCMethodHandler (HandlerState τ) where
  GetRPCMethod := fun req w =>
    match w.ext.static req.Method with
    | some result => ((some ⟨result, none, req.ID⟩, none), w)
    | none => ((none, none), w)
  PutRPCMethod := fun req res w =>
    match res with
    | some r =>
      if r.Error = none then
        (none, ⟨w.events,
          ⟨fun key => if key = req.Method then some r.Result else w.ext.static key,
            w.ext.backend⟩⟩)
      else (none, w)
    | none => (none, w)

/-- Modelled from the spec: the value of one hexadecimal digit. -/
def hexValue (c : Char) : Option Nat :=
  if 48 ≤ c.toNat ∧ c.toNat ≤ 57 then some (c.toNat - 48)
  else if 97 ≤ c.toNat ∧ c.toNat ≤ 102 then some (c.toNat - 87)
  else if 65 ≤ c.toNat ∧ c.toNat ≤ 70 then some (c.toNat - 55)
  else none

/-- Modelled from the spec: the number a numeric hex block identifier such as
`0x1` stands for; `none` for anything else, in particular for the symbolic tags
`latest`, `pending` and `earliest`. -/
def parseHexQuantity (s : String) : Option Nat :=
  match s.data with
  | '0' :: 'x' :: d :: ds =>
    (d :: ds).foldl (fun acc c => acc.bind fun a => (hexValue c).map fun v => a * 16 + v) (some 0)
  | _ => none

/-- Modelled from the spec: the cache key of the Block-by-Number Handler,
`{method, normalized block identifier, full-transaction-object flag}`, the
numeric hex identifier verbatim. -/
def blockByNumberKey (method block : String) (full : Bool) : String :=
  method ++ ":" ++ block ++ ":" ++ (if full then "true" else "false")

/-- Modelled from the spec: what the Block-by-Number Handler caches on: the
block identifier, the flag and the block number of a request whose parameters
are a numeric hex block identifier and the flag.  A symbolic tag is never
cached. -/
def blockByNumberParams (req : RPCReq) : Option (String × Bool × Nat) :=
  match req.Params with
  | [JSONValue.string block, JSONValue.bool full] =>
    (parseHexQuantity block).map fun n => (block, full, n)
  | _ => none

/-- Modelled from the spec: the Block-by-Number Handler
(`EthGetBlockByNumberMethodHandler`), whose methods are defined outside
`cache.go`.  A read consults the storage backend under the key, an empty value
being a miss.  A write stores the result text of a successful response when the
requested block number is at most the latest known block number minus the
confirmation threshold, and otherwise returns success without caching. -/
def EthGetBlockByNumberMethodHandler {σ : Type} (cache : Cache σ)
    (getLatestBlockNumFn : GetLatestBlockNumFn σ) (numBlockConfirmations : Int) :
    RPCMethodHandler σ where
  GetRPCMethod := fun req w =>
    match blockByNumberParams req with
    | none => ((none, none), w)
    | some (block, full, _) =>
      match cache.Get (blockByNumberKey req.Method block full) w with
      | ((val, err), w1) =>
        if err ≠ none then ((none, err), w1)
        else if val = "" then ((none, none), w1)
        else ((some ⟨val, none, req.ID⟩, none), w1)
  PutRPCMethod := fun req res w =>
    match blockByNumberParams req, res with
    | some (block, full, n), some r =>
      if r.Error ≠ none then (none, w)
      else
        match getLatestBlockNumFn w with
        | (latest, err) =>
          if err ≠ none then (err, w)
          else if (n : Int) ≤ (latest : Int) - numBlockConfirmations then
            cache.Put (blockByNumberKey req.Method block full) r.Result w
          else (none, w)
    | _, _ => (none, w)

/-- The handler types with the Static Handler and the Block-by-Number Handler
as the spec describes them, the other four as given. -/
def specHandlers {τ : Type} (T : HandlerTypes (HandlerState τ)) : HandlerTypes (HandlerState τ) where
  StaticMethodHandler := StaticMethodHandler
  EthGetBlockByNumberMethodHandler := EthGetBlockByNumberMethodHandler
  EthGetBlockRangeMethodHandler := T.EthGetBlockRangeMethodHandler
  EthBlockNumberMethodHandler := T.EthBlockNumberMethodHandler
  EthGasPriceMethodHandler := T.EthGasPriceMethodHandler
  EthCallMethodHandler := T.EthCallMethodHandler

/-! ## Sample collaborators

Small handlers, caches, clients and codecs on which the properties below are
instantiated. -/

/-- A handler that never has anything cached: `GetRPCMethod` returns
`(nil, nil)`, `PutRPCMethod` returns `nil`, neither touches the world. -/
def emptyHandler {σ : Type} : RPCMethodHandler σ where
  GetRPCMethod := fun _ w => ((none, none), w)
  PutRPCMethod := fun _ _ w => (none, w)

/-- A handler with one fixed response, tagged with the id of the request. -/
def fixedHandler (result : String) : RPCMethodHandler Unit where
  GetRPCMethod := fun req w => ((some ⟨result, none, req.ID⟩, none), w)
  PutRPCMethod := fun _ _ w => (none, w)

/-- A handler whose two methods fail. -/
def failingHandler (e : Error) : RPCMethodHandler Unit where
  GetRPCMethod := fun _ w => ((none, some e), w)
  PutRPCMethod := fun _ _ w => (some e, w)

/-- A cache that holds nothing. -/
def nullCache : Cache Unit where
  Get := fun _ w => (("", none), w)
  Put := fun _ _ w => (none, w)

/-- Handler types for the examples: the static handler has one fixed response,
the gas price handler fails, the others have nothing cached. -/
def sampleHandlers : HandlerTypes Unit where
  StaticMethodHandler := fixedHandler "\"0x420\""
  EthGetBlockByNumberMethodHandler := fun _ _ _ => emptyHandler
  EthGetBlockRangeMethodHandler := fun _ _ _ => emptyHandler
  EthBlockNumberMethodHandler := fun _ => emptyHandler
  EthGasPriceMethodHandler := fun _ => failingHandler (Error.errorString "no gas price")
  EthCallMethodHandler := fun _ _ _ => emptyHandler

/-- The RPC cache `newRPCCache` builds from the sample handlers. -/
def sampleRPCCache : rpcCache Unit :=
  newRPCCache sampleHandlers nullCache (fun _ => (100, none)) (fun _ => (7, none)) 5

/-- A redis client for the examples: the key `eth_chainId` is stored, the key
`down` makes the connection fail, every other key is absent. -/
def sampleRedis : redis.Client Unit where
  Get := fun key w =>
    if key = "eth_chainId" then (("\"0x420\"", none), w)
    else if key = "down" then (("", some (Error.errorString "i/o timeout")), w)
    else (("", some redis.Nil), w)
  Set := fun key _ w =>
    if key = "down" then (some (Error.errorString "i/o timeout"), w) else (none, w)

/-- A stand-in for the snappy codec in the examples: the encoding is the text
behind a one-character header, so that, like a snappy block, it is never empty;
the decoder rejects what does not start with the header. -/
def frameSnappy : Snappy where
  Encode := fun v => "s" ++ v
  Decode := fun e =>
    match e.data with
    | 's' :: rest => (String.mk rest, none)
    | _ => ("", some (Error.errorString "snappy: corrupt input"))

/-- A codec whose decoder fails on every input. -/
def brokenSnappy : Snappy where
  Encode := fun v => v
  Decode := fun _ => ("", some (Error.errorString "snappy: corrupt input"))

/-- A cache whose `Get` and `Put` fail. -/
def failingCache (e : Error) : Cache Unit where
  Get := fun _ w => (("", some e), w)
  Put := fun _ _ w => (some e, w)

/-- A sample of `n` entries under pairwise distinct keys: the key of entry `i`
is the letter `k` written `i` times. -/
def sampleEntries (n : Nat) : List (String × String) :=
  (List.range n).map fun i => (String.mk (List.replicate i 'k'), "v")

/-- Handler types none of which caches anything. -/
def noHandlers {σ : Type} : HandlerTypes σ where
  StaticMethodHandler := emptyHandler
  EthGetBlockByNumberMethodHandler := fun _ _ _ => emptyHandler
  EthGetBlockRangeMethodHandler := fun _ _ _ => emptyHandler
  EthBlockNumberMethodHandler := fun _ => emptyHandler
  EthGasPriceMethodHandler := fun _ => emptyHandler
  EthCallMethodHandler := fun _ _ _ => emptyHandler

/-- The sample world of the instances of C3: nothing recorded, nothing held by
the static handlers, an empty memory cache as the storage backend. -/
def sampleWorld : World (HandlerState cache) := ⟨[], ⟨fun _ => none, newMemoryCache⟩⟩

/-! ## Properties of the facade -/

/-- The events `GetRPC` leaves when the handler returns a nil response are the
events the handler left: the branch that would record the miss is not reached. -/
theorem rpcCache.GetRPC_nil_response_events {σ : Type} (c : rpcCache σ) (req : RPCReq)
    (w w1 : World σ) (handler : RPCMethodHandler σ) (err : Option Error)
    (hh : c.handlers req.Method = some handler)
    (hg : handler.GetRPCMethod req w = ((none, err), w1)) :
    c.GetRPC req w = ((none, err), w1) := by
  simp [rpcCache.GetRPC, hh, hg]

/-- C1, evaluated: for the registered method `eth_getBlockByNumber` of
`sampleRPCCache` the handler returns a nil response, and `GetRPC` records
nothing, so in particular no cache-miss event. -/
theorem rpcCache.GetRPC_miss_not_recorded :
    (sampleRPCCache.GetRPC ⟨"eth_getBlockByNumber", [], "1"⟩ ⟨[], ()⟩).1 = (none, none) ∧
    (sampleRPCCache.GetRPC ⟨"eth_getBlockByNumber", [], "1"⟩ ⟨[], ()⟩).2.events = [] ∧
    (sampleRPCCache.GetRPC ⟨"eth_getBlockByNumber", [], "1"⟩ ⟨[], ()⟩).2.events
      ≠ [Event.CacheMiss "eth_getBlockByNumber"] := by
  decide

/-- The methods for which `newRPCCache` registers a handler. -/
theorem newRPCCache_handlers_none {σ : Type} (T : HandlerTypes σ) (cache : Cache σ)
    (f : GetLatestBlockNumFn σ) (g : GetLatestGasPriceFn σ) (n : Int) (method : String) :
    (newRPCCache T cache f g n).handlers method = none ↔
      method ∉ ["eth_chainId", "net_version", "eth_getBlockByNumber", "eth_getBlockRange",
        "eth_blockNumber", "eth_gasPrice", "eth_call"] := by
  simp only [newRPCCache, List.mem_cons, List.mem_singleton, List.not_mem_nil, or_false, not_or]
  constructor
  · intro h
    refine ⟨?_, ?_, ?_, ?_, ?_, ?_, ?_⟩ <;> intro hm <;> simp [hm] at h
  · rintro ⟨h1, h2, h3, h4, h5, h6, h7⟩
    simp [h1, h2, h3, h4, h5, h6, h7]

/-- C4: when no handler is registered for the method of the request, `GetRPC`
returns `(nil, nil)` and `PutRPC` returns `nil`, and both leave the world as it
was, whatever the handlers and the storage backend are: no handler has run,
nothing was written, no event was recorded. -/
theorem rpcCache.unknown_method_uncacheable {σ : Type} (c : rpcCache σ) (req : RPCReq)
    (res : Option RPCRes) (w : World σ) (hh : c.handlers req.Method = none) :
    c.GetRPC req w = ((none, none), w) ∧ c.PutRPC req res w = (none, w) := by
  simp [rpcCache.GetRPC, rpcCache.PutRPC, hh]

/-- An instance of C4: `eth_sendRawTransaction` is not one of the seven
methods `newRPCCache` registers. -/
theorem rpcCache.unknown_method_uncacheable_witness :
    (newRPCCache noHandlers nullCache (fun _ => (100, none)) (fun _ => (7, none)) 5).handlers
      "eth_sendRawTransaction" = none ∧
    (newRPCCache noHandlers nullCache (fun _ => (100, none)) (fun _ => (7, none)) 5).GetRPC
      ⟨"eth_sendRawTransaction", [], "7"⟩ ⟨[Event.CacheHit "eth_chainId"], ()⟩
      = ((none, none), ⟨[Event.CacheHit "eth_chainId"], ()⟩) ∧
    (newRPCCache noHandlers nullCache (fun _ => (100, none)) (fun _ => (7, none)) 5).PutRPC
      ⟨"eth_sendRawTransaction", [], "7"⟩ (some ⟨"\"0x1\"", none, "7"⟩)
        ⟨[Event.CacheHit "eth_chainId"], ()⟩
      = (none, ⟨[Event.CacheHit "eth_chainId"], ()⟩) :=
  ⟨rfl,
   rpcCache.unknown_method_uncacheable
     (newRPCCache noHandlers nullCache (fun _ => (100, none)) (fun _ => (7, none)) 5)
     ⟨"eth_sendRawTransaction", [], "7"⟩
     (some ⟨"\"0x1\"", none, "7"⟩) ⟨[Event.CacheHit "eth_chainId"], ()⟩ rfl⟩

/-- C5: when the registered handler returns a response that is not nil,
`GetRPC` adds to the events the handler left exactly one event, the cache hit
for the method of the request, and nothing else changes. -/
theorem rpcCache.GetRPC_records_hit {σ : Type} (c : rpcCache σ) (req : RPCReq)
    (w w1 : World σ) (handler : RPCMethodHandler σ) (res : RPCRes) (err : Option Error)
    (hh : c.handlers req.Method = some handler)
    (hg : handler.GetRPCMethod req w = ((some res, err), w1)) :
    (c.GetRPC req w).2.events = w1.events ++ [Event.CacheHit req.Method] ∧
    (c.GetRPC req w).2.ext = w1.ext := by
  simp [rpcCache.GetRPC, hh, hg, RecordCacheHit]

/-- An instance of C5: `eth_chainId` in `sampleRPCCache`. -/
theorem rpcCache.GetRPC_records_hit_witness :
    (sampleRPCCache.GetRPC ⟨"eth_chainId", [], "1"⟩ ⟨[], ()⟩).2.events
      = [] ++ [Event.CacheHit "eth_chainId"] ∧
    (sampleRPCCache.GetRPC ⟨"eth_chainId", [], "1"⟩ ⟨[], ()⟩).2.ext = () :=
  rpcCache.GetRPC_records_hit sampleRPCCache ⟨"eth_chainId", [], "1"⟩ ⟨[], ()⟩ ⟨[], ()⟩
    (fixedHandler "\"0x420\"") ⟨"\"0x420\"", none, "1"⟩ none rfl rfl

/-- C6: with a registered handler, `GetRPC` returns the pair the handler's
`GetRPCMethod` returned and `PutRPC` returns what the handler's `PutRPCMethod`
returned, leaving the world the handler left. -/
theorem rpcCache.delegates_to_handler {σ : Type} (c : rpcCache σ) (req : RPCReq)
    (res : Option RPCRes) (w : World σ) (handler : RPCMethodHandler σ)
    (hh : c.handlers req.Method = some handler) :
    (c.GetRPC req w).1 = (handler.GetRPCMethod req w).1 ∧
    c.PutRPC req res w = handler.PutRPCMethod req res w := by
  constructor
  · rcases hg : handler.GetRPCMethod req w with ⟨⟨r, e⟩, w1⟩
    cases r <;> simp [rpcCache.GetRPC, hh, hg]
  · simp [rpcCache.PutRPC, hh]

/-- An instance of C6: the error of the `eth_gasPrice` handler of
`sampleRPCCache` reaches the caller of `GetRPC` and of `PutRPC`. -/
theorem rpcCache.delegates_to_handler_witness :
    (sampleRPCCache.GetRPC ⟨"eth_gasPrice", [], "1"⟩ ⟨[], ()⟩).1
      = (none, some (Error.errorString "no gas price")) ∧
    sampleRPCCache.PutRPC ⟨"eth_gasPrice", [], "1"⟩ none ⟨[], ()⟩
      = (some (Error.errorString "no gas price"), ⟨[], ()⟩) :=
  rpcCache.delegates_to_handler sampleRPCCache ⟨"eth_gasPrice", [], "1"⟩ none ⟨[], ()⟩
    (failingHandler (Error.errorString "no gas price")) rfl

/-! ## Properties of the redis cache -/

/-- C10: what `redisCache.Get` returns and records, by what the store answered.
An absent key (`redis.Nil`) gives `("", nil)` and no event; any other error
`e` gives `("", e)` and the one event `RecordRedisError("CacheGet")`; a value
gives `(val, nil)` and no event.  An event is recorded if and only if the
error returned is not nil. -/
theorem redisCache.Get_by_cases {σ : Type} (c : redisCache σ) (key : String) (w : World σ) :
    (∀ val w1, c.rdb.Get key w = ((val, some redis.Nil), w1) →
      c.Get key w = (("", none), w1)) ∧
    (∀ val e w1, c.rdb.Get key w = ((val, some e), w1) → e ≠ redis.Nil →
      c.Get key w = (("", some e), ⟨w1.events ++ [Event.RedisError "CacheGet"], w1.ext⟩)) ∧
    (∀ val w1, c.rdb.Get key w = ((val, none), w1) → c.Get key w = ((val, none), w1)) ∧
    ((c.Get key w).1.2 ≠ none ↔
      (c.Get key w).2.events = (c.rdb.Get key w).2.events ++ [Event.RedisError "CacheGet"]) ∧
    ((c.Get key w).1.2 = none ↔ (c.Get key w).2.events = (c.rdb.Get key w).2.events) := by
  refine ⟨?_, ?_, ?_, ?_, ?_⟩
  · intro val w1 h
    simp [redisCache.Get, h]
  · intro val e w1 h hne
    simp [redisCache.Get, h, hne, RecordRedisError]
  · intro val w1 h
    simp [redisCache.Get, h]
  · rcases h : c.rdb.Get key w with ⟨⟨val, err⟩, w1⟩
    cases err with
    | none => simp [redisCache.Get, h]
    | some e =>
      by_cases hn : e = redis.Nil
      · simp [redisCache.Get, h, hn]
      · simp [redisCache.Get, h, hn, RecordRedisError]
  · rcases h : c.rdb.Get key w with ⟨⟨val, err⟩, w1⟩
    cases err with
    | none => simp [redisCache.Get, h]
    | some e =>
      by_cases hn : e = redis.Nil
      · simp [redisCache.Get, h, hn]
      · simp [redisCache.Get, h, hn, RecordRedisError]

/-- Instances of C10 on `sampleRedis`: an absent key, a failing connection and
a stored key. -/
theorem redisCache.Get_by_cases_witness :
    redisCache.Get ⟨sampleRedis⟩ "net_version" ⟨[], ()⟩ = (("", none), ⟨[], ()⟩) ∧
    redisCache.Get ⟨sampleRedis⟩ "down" ⟨[], ()⟩
      = (("", some (Error.errorString "i/o timeout")), ⟨[] ++ [Event.RedisError "CacheGet"], ()⟩) ∧
    redisCache.Get ⟨sampleRedis⟩ "eth_chainId" ⟨[], ()⟩ = (("\"0x420\"", none), ⟨[], ()⟩) :=
  ⟨(redisCache.Get_by_cases ⟨sampleRedis⟩ "net_version" ⟨[], ()⟩).1 "" ⟨[], ()⟩ rfl,
   (redisCache.Get_by_cases ⟨sampleRedis⟩ "down" ⟨[], ()⟩).2.1 ""
     (Error.errorString "i/o timeout") ⟨[], ()⟩ rfl (by decide),
   (redisCache.Get_by_cases ⟨sampleRedis⟩ "eth_chainId" ⟨[], ()⟩).2.2.1 "\"0x420\"" ⟨[], ()⟩ rfl⟩

/-! ## Properties of the compression decorator -/

/-- C8: when the underlying `Get` returns `("", nil)` the decorator returns
`("", nil)`, and when it returns an error the decorator returns that error with
an empty value; both whatever the decoder is, so the decoder has no part in the
result and a miss cannot surface as a decode error. -/
theorem cacheWithCompression.Get_miss_and_error {σ : Type} (snappy : Snappy)
    (c : cacheWithCompression σ) (key : String) (w : World σ) :
    (∀ w1, c.cache.Get key w = (("", none), w1) → c.Get snappy key w = (("", none), w1)) ∧
    (∀ val e w1, c.cache.Get key w = ((val, some e), w1) →
      c.Get snappy key w = (("", some e), w1)) := by
  constructor
  · intro w1 h
    simp [cacheWithCompression.Get, h]
  · intro val e w1 h
    simp [cacheWithCompression.Get, h]

/-- Instances of C8 with a decoder that fails on every input: a miss of the
underlying cache stays a miss, an error of the underlying cache is returned. -/
theorem cacheWithCompression.Get_miss_and_error_witness :
    cacheWithCompression.Get brokenSnappy (newCacheWithCompression nullCache) "k" ⟨[], ()⟩
      = (("", none), ⟨[], ()⟩) ∧
    cacheWithCompression.Get brokenSnappy
        (newCacheWithCompression (failingCache (Error.errorString "i/o timeout"))) "k" ⟨[], ()⟩
      = (("", some (Error.errorString "i/o timeout")), ⟨[], ()⟩) :=
  ⟨(cacheWithCompression.Get_miss_and_error brokenSnappy (newCacheWithCompression nullCache)
      "k" ⟨[], ()⟩).1 ⟨[], ()⟩ rfl,
   (cacheWithCompression.Get_miss_and_error brokenSnappy
      (newCacheWithCompression (failingCache (Error.errorString "i/o timeout")))
      "k" ⟨[], ()⟩).2 "" (Error.errorString "i/o timeout") ⟨[], ()⟩ rfl⟩

/-- What the decorator reads back after a write, from what the underlying
cache reads back and what the codec does on the value written. -/
theorem cacheWithCompression.Get_after_Put {σ : Type} (snappy : Snappy)
    (c : cacheWithCompression σ) (k v : String) (w : World σ)
    (h : (c.cache.Get k (c.cache.Put k (snappy.Encode v) w).2).1 = (snappy.Encode v, none))
    (hcodec : snappy.Decode (snappy.Encode v) = (v, none))
    (hempty : snappy.Encode v = "" → v = "") :
    (c.Get snappy k (c.Put snappy k v w).2).1 = (v, none) := by
  rcases hg : c.cache.Get k (c.cache.Put k (snappy.Encode v) w).2 with ⟨⟨ev, err⟩, w1⟩
  rw [hg] at h
  simp only [Prod.mk.injEq] at h
  obtain ⟨h1, h2⟩ := h
  subst h1 h2
  unfold cacheWithCompression.Get cacheWithCompression.Put
  rw [hg]
  by_cases he : snappy.Encode v = ""
  · have hv := hempty he
    subst hv
    simp [he]
  · simp [he, hcodec]

/-- C2: `Put(k, v)` followed by `Get(k)` on the decorator returns `(v, nil)`,
for every value `v`, the empty string included, provided the underlying cache
returns on `Get` the string last `Put` under the key and the codec decodes the
encoding of `v` to `v` (an encoding that is empty is only that of the empty
value). -/
theorem cacheWithCompression.Put_then_Get {σ : Type} (snappy : Snappy)
    (c : cacheWithCompression σ) (k v : String) (w : World σ)
    (hcache : ∀ e, (c.cache.Get k (c.cache.Put k e w).2).1 = (e, none))
    (hcodec : snappy.Decode (snappy.Encode v) = (v, none))
    (hempty : snappy.Encode v = "" → v = "") :
    (c.Get snappy k (c.Put snappy k v w).2).1 = (v, none) :=
  cacheWithCompression.Get_after_Put snappy c k v w (hcache (snappy.Encode v)) hcodec hempty

/-! ## Lemmas on the bounded cache -/

theorem lookup_filter_ne (l : List (String × String)) (k key : String) (h : k ≠ key) :
    (l.filter (fun e => e.1 ≠ key)).lookup k = l.lookup k := by
  simp only [ne_eq, decide_not]
  induction l with
  | nil => rfl
  | cons e l ih =>
    obtain ⟨a, b⟩ := e
    by_cases ha : a = key
    · subst ha
      have hka : (k == a) = false := by simpa using h
      simp [List.filter_cons, List.lookup_cons, hka, ih]
    · by_cases hk : k = a
      · subst hk
        simp [List.filter_cons, ha]
      · have hka : (k == a) = false := by simpa using hk
        simp [List.filter_cons, ha, List.lookup_cons, hka, ih]

theorem lookup_cons_ne (l : List (String × String)) (k key val : String) (h : k ≠ key) :
    ((key, val) :: l).lookup k = l.lookup k := by
  have hka : (k == key) = false := by simpa using h
  simp [List.lookup_cons, hka]

theorem lookup_dropLast_none (l : List (String × String)) (k : String)
    (h : l.lookup k = none) : l.dropLast.lookup k = none := by
  rw [List.lookup_eq_none_iff] at h ⊢
  intro p hp
  exact h p (List.dropLast_subset l hp)

theorem lookup_of_mem_nodup (l : List (String × String)) (k v : String)
    (hn : (l.map Prod.fst).Nodup) (hm : (k, v) ∈ l) : l.lookup k = some v := by
  induction l with
  | nil => simp at hm
  | cons e l ih =>
    obtain ⟨a, b⟩ := e
    simp only [List.map_cons, List.nodup_cons] at hn
    rcases List.mem_cons.mp hm with h | h
    · cases h
      simp
    · have hne : k ≠ a := by
        rintro rfl
        exact hn.1 (List.mem_map.mpr ⟨(k, v), h, rfl⟩)
      rw [lookup_cons_ne l k a b hne]
      exact ih hn.2 h

theorem lookup_none_of_not_mem (l : List (String × String)) (k : String)
    (h : k ∉ l.map Prod.fst) : l.lookup k = none := by
  rw [List.lookup_eq_none_iff]
  intro p hp
  have : k ≠ p.1 := by
    rintro rfl
    exact h (List.mem_map.mpr ⟨p, hp, rfl⟩)
  simpa using this

theorem lru_Get_fst (c : lru.Cache) (key : String) :
    (c.Get key).1 = c.items.lookup key := by
  unfold lru.Cache.Get
  cases c.items.lookup key <;> rfl

theorem lru_Get_size (c : lru.Cache) (key : String) : (c.Get key).2.size = c.size := by
  unfold lru.Cache.Get
  cases c.items.lookup key <;> rfl

theorem lru_Get_lookup (c : lru.Cache) (key k : String) :
    (c.Get key).2.items.lookup k = c.items.lookup k := by
  unfold lru.Cache.Get
  cases h : c.items.lookup key with
  | none => rfl
  | some val =>
    by_cases hk : k = key
    · subst hk
      simp [h]
    · simp only []
      rw [lookup_cons_ne _ k key val hk, lookup_filter_ne _ k key hk]

theorem lru_Add_size (c : lru.Cache) (key value : String) :
    (c.Add key value).size = c.size := by
  unfold lru.Cache.Add
  cases c.items.lookup key with
  | none => simp only []; split <;> rfl
  | some _ => rfl

theorem lru_Add_lookup_self (c : lru.Cache) (key value : String) (hs : 0 < c.size) :
    (c.Add key value).items.lookup key = some value := by
  unfold lru.Cache.Add
  cases c.items.lookup key with
  | some _ => simp
  | none =>
    simp only []
    split
    · next hlt =>
      have hne : c.items ≠ [] := by
        intro h
        rw [h] at hlt
        simp at hlt
        omega
      rw [List.dropLast_cons_of_ne_nil hne]
      simp
    · simp

theorem lru_Add_lookup_none (c : lru.Cache) (key value k : String) (hk : k ≠ key)
    (h : c.items.lookup k = none) : (c.Add key value).items.lookup k = none := by
  unfold lru.Cache.Add
  cases c.items.lookup key with
  | some _ =>
    simp only []
    rw [lookup_cons_ne _ k key value hk, lookup_filter_ne _ k key hk]
    exact h
  | none =>
    simp only []
    split
    · apply lookup_dropLast_none
      rw [lookup_cons_ne _ k key value hk]
      exact h
    · simp only []
      rw [lookup_cons_ne _ k key value hk]
      exact h

theorem lru_Add_fresh (c : lru.Cache) (key value : String)
    (h : c.items.lookup key = none) (hlen : c.items.length ≤ c.size) :
    (c.Add key value).items = ((key, value) :: c.items).take c.size := by
  unfold lru.Cache.Add
  rw [h]
  simp only []
  split
  · next hlt =>
    have hs : c.size = c.items.length := by omega
    rw [List.dropLast_eq_take, hs]
    simp
  · next hge =>
    simp only []
    rw [List.take_of_length_le]
    simp only [List.length_cons]
    omega

theorem cache.Get_fst (c : cache) (key : String) :
    (c.Get key).1 = ((c.lru.items.lookup key).getD "", none) := by
  unfold cache.Get
  have h := lru_Get_fst c.lru key
  rcases hg : c.lru.Get key with ⟨r, l⟩
  rw [hg] at h
  simp only [] at h
  rw [← h]
  cases r <;> rfl

theorem cache.Get_snd (c : cache) (key : String) : (c.Get key).2 = ⟨(c.lru.Get key).2⟩ := by
  unfold cache.Get
  rcases hg : c.lru.Get key with ⟨r, l⟩
  cases r <;> rfl

theorem cache.step_size (c : cache) (op : Op) : (c.step op).lru.size = c.lru.size := by
  cases op with
  | Get key => simp [cache.step, cache.Get_snd, lru_Get_size]
  | Put key value => simp [cache.step, cache.Put, lru_Add_size]

theorem cache.run_size (ops : List Op) (c : cache) : (c.run ops).lru.size = c.lru.size := by
  induction ops generalizing c with
  | nil => rfl
  | cons op ops ih =>
    show ((c.step op).run ops).lru.size = c.lru.size
    rw [ih, cache.step_size]

theorem cache.run_never_written (ops : List Op) (c : cache) (k : String)
    (hk : ∀ v, Op.Put k v ∉ ops) (h : c.lru.items.lookup k = none) :
    (c.run ops).lru.items.lookup k = none := by
  induction ops generalizing c with
  | nil => exact h
  | cons op ops ih =>
    show ((c.step op).run ops).lru.items.lookup k = none
    apply ih
    · intro v hv
      exact hk v (List.mem_cons_of_mem _ hv)
    · cases op with
      | Get key =>
        simp only [cache.step, cache.Get_snd]
        rw [lru_Get_lookup]
        exact h
      | Put key value =>
        have hne : k ≠ key := by
          rintro rfl
          exact hk value (List.mem_cons_self _ _)
        simp only [cache.step, cache.Put]
        exact lru_Add_lookup_none c.lru key value k hne h

theorem cache.run_gets_lookup (keys : List String) (c : cache) (k : String) :
    (c.run (keys.map Op.Get)).lru.items.lookup k = c.lru.items.lookup k := by
  induction keys generalizing c with
  | nil => rfl
  | cons key keys ih =>
    show ((c.step (Op.Get key)).run (keys.map Op.Get)).lru.items.lookup k = _
    rw [ih]
    simp only [cache.step, cache.Get_snd]
    rw [lru_Get_lookup]

theorem cache.run_append (c : cache) (ops1 ops2 : List Op) :
    c.run (ops1 ++ ops2) = (c.run ops1).run ops2 := by
  simp [cache.run, List.foldl_append]

/-- After `Put` of pairwise distinct keys into an empty bounded cache of
capacity `n`, the cache holds the last `n` pairs, the latest first. -/
theorem cache.run_puts_fresh (n : Nat) (kvs : List (String × String))
    (hn : (kvs.map Prod.fst).Nodup) :
    ((cache.mk (lru.New n)).run (kvs.map fun kv => Op.Put kv.1 kv.2)).lru.items
      = kvs.reverse.take n := by
  induction kvs using List.reverseRecOn with
  | nil => simp [cache.run, lru.New]
  | append_singleton kvs kv ih =>
    rw [List.map_append, List.nodup_append] at hn
    obtain ⟨hn1, _, hdis⟩ := hn
    have ih := ih hn1
    rw [List.map_append, cache.run_append]
    generalize hc : (cache.mk (lru.New n)).run (kvs.map fun kv => Op.Put kv.1 kv.2) = c at ih ⊢
    have hsize : c.lru.size = n := by
      rw [← hc, cache.run_size]
      rfl
    have hfresh : c.lru.items.lookup kv.1 = none := by
      rw [ih]
      apply lookup_none_of_not_mem
      intro hmem
      have h1 : kv.1 ∈ kvs.map Prod.fst := by
        rcases List.mem_map.mp hmem with ⟨p, hp, hp1⟩
        exact List.mem_map.mpr ⟨p, List.mem_reverse.mp (List.mem_of_mem_take hp), hp1⟩
      exact hdis h1 (by simp)
    have hlen : c.lru.items.length ≤ c.lru.size := by
      rw [ih, hsize, List.length_take]
      omega
    show (c.lru.Add kv.1 kv.2).items = _
    rw [lru_Add_fresh c.lru kv.1 kv.2 hfresh hlen, ih, hsize, List.reverse_append]
    simp only [List.reverse_cons, List.reverse_nil, List.nil_append, List.singleton_append]
    cases n with
    | zero => simp
    | succ m => simp [List.take_take]

/-- The memory cache returns on `Get` the string last `Put` under the key. -/
theorem cache.toCache_Get_after_Put (w : World cache) (k e : String) (hs : 0 < w.ext.lru.size) :
    (cache.toCache.Get k (cache.toCache.Put k e w).2).1 = (e, none) := by
  show (cache.Get (cache.Put w.ext k e).2 k).1 = (e, none)
  rw [cache.Get_fst]
  simp [cache.Put, lru_Add_lookup_self w.ext.lru k e hs]

/-- The memory cache has nothing under a key that was never written. -/
theorem cache.Get_never_written (ops : List Op) (k : String) (hk : ∀ v, Op.Put k v ∉ ops) :
    ((newMemoryCache.run ops).Get k).1 = ("", none) := by
  rw [cache.Get_fst, cache.run_never_written ops newMemoryCache k hk rfl]
  rfl

theorem cache.run_newMemoryCache_size (ops : List Op) :
    0 < (newMemoryCache.run ops).lru.size := by
  rw [cache.run_size]
  decide

/-- An instance of C2 on the memory cache, for the empty value and for a value
that is not empty. -/
theorem cacheWithCompression.Put_then_Get_witness :
    (cacheWithCompression.Get frameSnappy (newCacheWithCompression cache.toCache) "k"
      (cacheWithCompression.Put frameSnappy (newCacheWithCompression cache.toCache) "k" ""
        ⟨[], newMemoryCache⟩).2).1 = ("", none) ∧
    (cacheWithCompression.Get frameSnappy (newCacheWithCompression cache.toCache) "k"
      (cacheWithCompression.Put frameSnappy (newCacheWithCompression cache.toCache) "k" "\"0x420\""
        ⟨[], newMemoryCache⟩).2).1 = ("\"0x420\"", none) :=
  ⟨cacheWithCompression.Put_then_Get frameSnappy (newCacheWithCompression cache.toCache) "k" ""
      ⟨[], newMemoryCache⟩
      (fun e => cache.toCache_Get_after_Put ⟨[], newMemoryCache⟩ "k" e (by decide)) rfl
      (fun _ => rfl),
   cacheWithCompression.Put_then_Get frameSnappy (newCacheWithCompression cache.toCache) "k"
      "\"0x420\"" ⟨[], newMemoryCache⟩
      (fun e => cache.toCache_Get_after_Put ⟨[], newMemoryCache⟩ "k" e (by decide)) rfl
      (by decide)⟩

/-! ## Not found and the empty value -/

/-- C7 as stated fails: on a fresh memory cache, `Get` of the key `k` that was
never written and `Get` of `k` after `Put(k, "")` return the same result, and so
do the two through the compression decorator (here with `frameSnappy`). -/
theorem cache.not_found_distinguished_counterexample :
    ¬ ((newMemoryCache.Get "k").1 ≠ ((newMemoryCache.Put "k" "").2.Get "k").1) ∧
    ¬ ((cacheWithCompression.Get frameSnappy (newCacheWithCompression cache.toCache) "k"
          ⟨[], newMemoryCache⟩).1 ≠
       (cacheWithCompression.Get frameSnappy (newCacheWithCompression cache.toCache) "k"
          (cacheWithCompression.Put frameSnappy (newCacheWithCompression cache.toCache) "k" ""
            ⟨[], newMemoryCache⟩).2).1) := by
  decide

/-- C7, amended: on the memory cache, `Get` of a key that was never written
returns `("", nil)`, and so does `Get` of a key right after the empty value was
`Put` under it; the same holds through the compression decorator wrapped
around the memory cache when the codec decodes the encoding of the empty value
to the empty value.  Not-found and an empty cached value are the same result. -/
theorem cache.not_found_same_as_empty (ops ops2 : List Op) (k : String) (snappy : Snappy)
    (events : List Event) (hnever : ∀ v, Op.Put k v ∉ ops)
    (hcodec : snappy.Decode (snappy.Encode "") = ("", none)) :
    ((newMemoryCache.run ops).Get k).1 = ("", none) ∧
    (((newMemoryCache.run ops2).Put k "").2.Get k).1 = ("", none) ∧
    ((newCacheWithCompression cache.toCache).Get snappy k
      ⟨events, newMemoryCache.run ops⟩).1 = ("", none) ∧
    ((newCacheWithCompression cache.toCache).Get snappy k
      ((newCacheWithCompression cache.toCache).Put snappy k ""
        ⟨events, newMemoryCache.run ops2⟩).2).1 = ("", none) := by
  have h1 := cache.Get_never_written ops k hnever
  have h2 := cache.toCache_Get_after_Put ⟨events, newMemoryCache.run ops2⟩ k ""
    (cache.run_newMemoryCache_size ops2)
  refine ⟨h1, h2, ?_, ?_⟩
  · have hg : cache.toCache.Get k ⟨events, newMemoryCache.run ops⟩
        = (("", none), ⟨events, ((newMemoryCache.run ops).Get k).2⟩) := by
      show (((newMemoryCache.run ops).Get k).1, _) = _
      rw [h1]
    simp [cacheWithCompression.Get, newCacheWithCompression, hg]
  · exact cacheWithCompression.Get_after_Put snappy (newCacheWithCompression cache.toCache) k ""
      ⟨events, newMemoryCache.run ops2⟩
      (cache.toCache_Get_after_Put ⟨events, newMemoryCache.run ops2⟩ k _
        (cache.run_newMemoryCache_size ops2)) hcodec (fun _ => rfl)

/-- An instance of the amended C7: the key `k` after calls on other keys, and
after `Put(k, "")`. -/
theorem cache.not_found_same_as_empty_witness :
    ((newMemoryCache.run [Op.Put "a" "1", Op.Get "k"]).Get "k").1 = ("", none) ∧
    (((newMemoryCache.run [Op.Put "k" "1"]).Put "k" "").2.Get "k").1 = ("", none) ∧
    ((newCacheWithCompression cache.toCache).Get frameSnappy "k"
      ⟨[], newMemoryCache.run [Op.Put "a" "1", Op.Get "k"]⟩).1 = ("", none) ∧
    ((newCacheWithCompression cache.toCache).Get frameSnappy "k"
      ((newCacheWithCompression cache.toCache).Put frameSnappy "k" ""
        ⟨[], newMemoryCache.run [Op.Put "k" "1"]⟩).2).1 = ("", none) :=
  cache.not_found_same_as_empty [Op.Put "a" "1", Op.Get "k"] [Op.Put "k" "1"] "k" frameSnappy []
    (by simp) rfl

/-! ## Eviction -/

/-- What the memory cache holds after `Put` of one more pair than its capacity,
under pairwise distinct keys: all pairs but the first, the latest first. -/
theorem cache.items_after_puts (k0 v0 : String) (rest : List (String × String))
    (hlen : rest.length = memoryCacheLimit) (hkeys : (k0 :: rest.map Prod.fst).Nodup) :
    (newMemoryCache.run (Op.Put k0 v0 :: rest.map fun kv => Op.Put kv.1 kv.2)).lru.items
      = rest.reverse := by
  have h := cache.run_puts_fresh memoryCacheLimit ((k0, v0) :: rest) hkeys
  have e : cache.mk (lru.New memoryCacheLimit) = newMemoryCache := rfl
  rw [e, List.map_cons] at h
  rw [h, List.reverse_cons, ← hlen, ← List.length_reverse rest, List.take_left]

theorem sampleEntries_length (n : Nat) : (sampleEntries n).length = n := by
  simp [sampleEntries]

theorem sampleEntries_keys (n : Nat) : ("0" :: (sampleEntries n).map Prod.fst).Nodup := by
  rw [List.nodup_cons]
  constructor
  · intro h
    rcases List.mem_map.mp h with ⟨p, hp, hp0⟩
    rcases List.mem_map.mp hp with ⟨i, _, rfl⟩
    have h1 : List.replicate i 'k' = ['0'] := congrArg String.data hp0
    have h2 : '0' ∈ List.replicate i 'k' := by rw [h1]; simp
    have h3 := List.eq_of_mem_replicate h2
    exact absurd h3 (by decide)
  · rw [sampleEntries, List.map_map]
    apply List.Nodup.map _ (List.nodup_range n)
    intro i j hij
    have h1 : List.replicate i 'k' = List.replicate j 'k' := congrArg String.data hij
    have h2 := congrArg List.length h1
    simpa using h2

theorem sampleEntries_values (n : Nat) : ∀ kv ∈ sampleEntries n, kv.2 ≠ "" := by
  intro kv hkv
  rcases List.mem_map.mp hkv with ⟨i, _, rfl⟩
  show "v" ≠ ""
  decide

/-- C9: start from the empty memory cache of capacity `memoryCacheLimit` and
`Put` one pair more than the capacity, under pairwise distinct keys, with no
`Get` in between.  Then the cache holds `memoryCacheLimit` entries, and after
any further `Get` calls, `Get` of the key inserted first returns `("", nil)`
and `Get` of each other key returns the value stored under it, which for a
value that is not empty differs from the result of a miss. -/
theorem cache.evicts_least_recently_used (k0 v0 : String) (rest : List (String × String))
    (gets : List String) (hlen : rest.length = memoryCacheLimit)
    (hkeys : (k0 :: rest.map Prod.fst).Nodup) (hvals : ∀ kv ∈ rest, kv.2 ≠ "") :
    (newMemoryCache.run (Op.Put k0 v0 :: rest.map fun kv => Op.Put kv.1 kv.2)).lru.items.length
      = memoryCacheLimit ∧
    (((newMemoryCache.run (Op.Put k0 v0 :: rest.map fun kv => Op.Put kv.1 kv.2)).run
      (gets.map Op.Get)).Get k0).1 = ("", none) ∧
    ∀ kv ∈ rest,
      (((newMemoryCache.run (Op.Put k0 v0 :: rest.map fun kv => Op.Put kv.1 kv.2)).run
        (gets.map Op.Get)).Get kv.1).1 = (kv.2, none) ∧
      (((newMemoryCache.run (Op.Put k0 v0 :: rest.map fun kv => Op.Put kv.1 kv.2)).run
        (gets.map Op.Get)).Get kv.1).1 ≠ ("", none) := by
  have hitems := cache.items_after_puts k0 v0 rest hlen hkeys
  rw [List.nodup_cons] at hkeys
  obtain ⟨hk0, hnodup⟩ := hkeys
  refine ⟨by rw [hitems, List.length_reverse, hlen], ?_, ?_⟩
  · rw [cache.Get_fst, cache.run_gets_lookup, hitems, lookup_none_of_not_mem]
    · rfl
    · rw [List.map_reverse, List.mem_reverse]
      exact hk0
  · intro kv hkv
    have hl : ((newMemoryCache.run (Op.Put k0 v0 :: rest.map fun kv => Op.Put kv.1 kv.2)).run
        (gets.map Op.Get)).lru.items.lookup kv.1 = some kv.2 := by
      rw [cache.run_gets_lookup, hitems]
      apply lookup_of_mem_nodup
      · rw [List.map_reverse]
        exact List.nodup_reverse.mpr hnodup
      · exact List.mem_reverse.mpr hkv
    rw [cache.Get_fst, hl]
    refine ⟨rfl, ?_⟩
    intro h
    exact hvals kv hkv (congrArg Prod.fst h)

/-- An instance of C9: the key `0` first, then `memoryCacheLimit` sample
entries, then a `Get` of the first key and of one other. -/
theorem cache.evicts_least_recently_used_witness :
    (newMemoryCache.run (Op.Put "0" "v" ::
      (sampleEntries memoryCacheLimit).map fun kv => Op.Put kv.1 kv.2)).lru.items.length
      = memoryCacheLimit ∧
    (((newMemoryCache.run (Op.Put "0" "v" ::
      (sampleEntries memoryCacheLimit).map fun kv => Op.Put kv.1 kv.2)).run
      (["0", "kk"].map Op.Get)).Get "0").1 = ("", none) ∧
    ∀ kv ∈ sampleEntries memoryCacheLimit,
      (((newMemoryCache.run (Op.Put "0" "v" ::
        (sampleEntries memoryCacheLimit).map fun kv => Op.Put kv.1 kv.2)).run
        (["0", "kk"].map Op.Get)).Get kv.1).1 = (kv.2, none) ∧
      (((newMemoryCache.run (Op.Put "0" "v" ::
        (sampleEntries memoryCacheLimit).map fun kv => Op.Put kv.1 kv.2)).run
        (["0", "kk"].map Op.Get)).Get kv.1).1 ≠ ("", none) :=
  cache.evicts_least_recently_used "0" "v" (sampleEntries memoryCacheLimit) ["0", "kk"]
    (sampleEntries_length memoryCacheLimit) (sampleEntries_keys memoryCacheLimit)
    (sampleEntries_values memoryCacheLimit)

/-! ## A write followed by a read, through the facade -/

theorem parseHexQuantity_samples :
    parseHexQuantity "0x1" = some 1 ∧ parseHexQuantity "0x5f" = some 95 ∧
    parseHexQuantity "0x" = none ∧ parseHexQuantity "latest" = none ∧
    parseHexQuantity "pending" = none ∧ parseHexQuantity "earliest" = none := by
  decide

theorem newRPCCache_handlers_static {σ : Type} (T : HandlerTypes σ) (cache : Cache σ)
    (f : GetLatestBlockNumFn σ) (g : GetLatestGasPriceFn σ) (n : Int) (method : String)
    (h : method = "eth_chainId" ∨ method = "net_version") :
    (newRPCCache T cache f g n).handlers method = some T.StaticMethodHandler := by
  rcases h with h | h <;> subst h <;> simp [newRPCCache]

theorem newRPCCache_handlers_blockByNumber {σ : Type} (T : HandlerTypes σ) (cache : Cache σ)
    (f : GetLatestBlockNumFn σ) (g : GetLatestGasPriceFn σ) (n : Int) :
    (newRPCCache T cache f g n).handlers "eth_getBlockByNumber"
      = some (T.EthGetBlockByNumberMethodHandler cache f n) := by
  simp [newRPCCache]

theorem rpcCache.GetRPC_fst {σ : Type} (c : rpcCache σ) (req : RPCReq) (w : World σ)
    (handler : RPCMethodHandler σ) (hh : c.handlers req.Method = some handler) :
    (c.GetRPC req w).1 = (handler.GetRPCMethod req w).1 := by
  rcases hg : handler.GetRPCMethod req w with ⟨⟨r, e⟩, w1⟩
  cases r <;> simp [rpcCache.GetRPC, hh, hg]

theorem rpcCache.PutRPC_eq {σ : Type} (c : rpcCache σ) (req : RPCReq) (res : Option RPCRes)
    (w : World σ) (handler : RPCMethodHandler σ) (hh : c.handlers req.Method = some handler) :
    c.PutRPC req res w = handler.PutRPCMethod req res w := by
  simp [rpcCache.PutRPC, hh]

/-- C3: take the RPC cache that `newRPCCache` builds with the Static Handler
and the Block-by-Number Handler of the spec, over a storage backend that
returns on `Get` the string last `Put` under a key.  For a request of method
`eth_chainId` or `net_version`, or of method `eth_getBlockByNumber` with a
numeric hex block whose number is at most the latest block number minus the
confirmation threshold, `PutRPC` of a successful response (its result text not
empty) followed by `GetRPC` of the request returns, without error, a response
that is not nil and carries the same result and the id of the request. -/
theorem rpcCache.Put_then_Get_hits {τ : Type} (T : HandlerTypes (HandlerState τ))
    (cache : Cache (HandlerState τ)) (getLatestBlockNumFn : GetLatestBlockNumFn (HandlerState τ))
    (getLatestGasPriceFn : GetLatestGasPriceFn (HandlerState τ)) (numBlockConfirmations : Int)
    (req : RPCReq) (res : RPCRes) (w : World (HandlerState τ))
    (hmethod : req.Method = "eth_chainId" ∨ req.Method = "net_version" ∨
      (req.Method = "eth_getBlockByNumber" ∧ ∃ block full n latest,
        req.Params = [JSONValue.string block, JSONValue.bool full] ∧
        parseHexQuantity block = some n ∧ getLatestBlockNumFn w = (latest, none) ∧
        (n : Int) ≤ (latest : Int) - numBlockConfirmations))
    (hres : res.Error = none) (hresult : res.Result ≠ "")
    (hcache : ∀ k v, (cache.Get k (cache.Put k v w).2).1 = (v, none)) :
    ((newRPCCache (specHandlers T) cache getLatestBlockNumFn getLatestGasPriceFn
        numBlockConfirmations).GetRPC req
      ((newRPCCache (specHandlers T) cache getLatestBlockNumFn getLatestGasPriceFn
        numBlockConfirmations).PutRPC req (some res) w).2).1
      = (some ⟨res.Result, none, req.ID⟩, none) := by
  have hstatic : req.Method = "eth_chainId" ∨ req.Method = "net_version" →
      ((newRPCCache (specHandlers T) cache getLatestBlockNumFn getLatestGasPriceFn
          numBlockConfirmations).GetRPC req
        ((newRPCCache (specHandlers T) cache getLatestBlockNumFn getLatestGasPriceFn
          numBlockConfirmations).PutRPC req (some res) w).2).1
        = (some ⟨res.Result, none, req.ID⟩, none) := by
    intro hm
    have hh := newRPCCache_handlers_static (specHandlers T) cache getLatestBlockNumFn
      getLatestGasPriceFn numBlockConfirmations req.Method hm
    rw [rpcCache.GetRPC_fst _ req _ _ hh, rpcCache.PutRPC_eq _ req _ _ _ hh]
    simp [specHandlers, StaticMethodHandler, hres]
  rcases hmethod with hm | hm | ⟨hm, block, full, n, latest, hparams, hblock, hlatest, hconf⟩
  · exact hstatic (Or.inl hm)
  · exact hstatic (Or.inr hm)
  · have hh := newRPCCache_handlers_blockByNumber (specHandlers T) cache getLatestBlockNumFn
      getLatestGasPriceFn numBlockConfirmations
    rw [← hm] at hh
    rw [rpcCache.GetRPC_fst _ req _ _ hh, rpcCache.PutRPC_eq _ req _ _ _ hh]
    have hp : blockByNumberParams req = some (block, full, n) := by
      simp [blockByNumberParams, hparams, hblock]
    have hc := hcache (blockByNumberKey req.Method block full) res.Result
    rcases hg : cache.Get (blockByNumberKey req.Method block full)
      (cache.Put (blockByNumberKey req.Method block full) res.Result w).2 with ⟨⟨val, err⟩, w1⟩
    rw [hg] at hc
    simp only [Prod.mk.injEq] at hc
    obtain ⟨hval, herr⟩ := hc
    subst hval herr
    simp [specHandlers, EthGetBlockByNumberMethodHandler, hp, hres, hlatest, hconf, hg, hresult]

theorem cache.onBackend_Get_after_Put (w : World (HandlerState cache)) (k v : String)
    (hs : 0 < w.ext.backend.lru.size) :
    (cache.toCache.onBackend.Get k (cache.toCache.onBackend.Put k v w).2).1 = (v, none) :=
  cache.toCache_Get_after_Put ⟨w.events, w.ext.backend⟩ k v hs

/-- Instances of C3 over the memory cache, with the latest block number 100
and 5 confirmations: `eth_chainId`, and `eth_getBlockByNumber(["0x1", true])`. -/
theorem rpcCache.Put_then_Get_hits_witness :
    ((newRPCCache (specHandlers noHandlers) cache.toCache.onBackend (fun _ => (100, none))
        (fun _ => (7, none)) 5).GetRPC ⟨"eth_chainId", [], "999"⟩
      ((newRPCCache (specHandlers noHandlers) cache.toCache.onBackend (fun _ => (100, none))
        (fun _ => (7, none)) 5).PutRPC ⟨"eth_chainId", [], "999"⟩
          (some ⟨"\"0x420\"", none, "999"⟩) sampleWorld).2).1
      = (some ⟨"\"0x420\"", none, "999"⟩, none) ∧
    ((newRPCCache (specHandlers noHandlers) cache.toCache.onBackend (fun _ => (100, none))
        (fun _ => (7, none)) 5).GetRPC
        ⟨"eth_getBlockByNumber", [JSONValue.string "0x1", JSONValue.bool true], "999"⟩
      ((newRPCCache (specHandlers noHandlers) cache.toCache.onBackend (fun _ => (100, none))
        (fun _ => (7, none)) 5).PutRPC
          ⟨"eth_getBlockByNumber", [JSONValue.string "0x1", JSONValue.bool true], "999"⟩
          (some ⟨"\"dummy_block\"", none, "999"⟩) sampleWorld).2).1
      = (some ⟨"\"dummy_block\"", none, "999"⟩, none) :=
  ⟨rpcCache.Put_then_Get_hits noHandlers cache.toCache.onBackend (fun _ => (100, none))
      (fun _ => (7, none)) 5 ⟨"eth_chainId", [], "999"⟩ ⟨"\"0x420\"", none, "999"⟩ sampleWorld
      (Or.inl rfl) rfl (by decide)
      (fun k v => cache.onBackend_Get_after_Put sampleWorld k v (by decide)),
   rpcCache.Put_then_Get_hits noHandlers cache.toCache.onBackend (fun _ => (100, none))
      (fun _ => (7, none)) 5
      ⟨"eth_getBlockByNumber", [JSONValue.string "0x1", JSONValue.bool true], "999"⟩
      ⟨"\"dummy_block\"", none, "999"⟩ sampleWorld
      (Or.inr (Or.inr ⟨rfl, "0x1", true, 1, 100, rfl, by decide, rfl, by decide⟩)) rfl (by decide)
      (fun k v => cache.onBackend_Get_after_Put sampleWorld k v (by decide))⟩

end proxyd
